import Mathlib

/-!
Shallow embedding of the guitar-fretboard-trainer application (`app.js`).

The JavaScript program is a single-page quiz: it draws a random fretboard
position from the enabled frets/strings, the user guesses the note, and
per-note / per-fret counters are persisted.  The definitions below translate
the data constants and the state-manipulating functions of `app.js` into
Lean.  JavaScript `undefined` values (out-of-range array reads, object
lookups of absent keys) are modelled with `Option`; JavaScript objects used
as string-keyed dictionaries are modelled as association lists whose lookup
returns the first matching entry, mirroring object key semantics.
-/

/-- The constant `NOTES` (app.js line 2): the 12 pitch-class names in semitone order. -/
def NOTES : List String :=
  "C" :: "C#" :: "D" :: "D#" :: "E" :: "F" ::
    "F#" :: "G" :: "G#" :: "A" :: "A#" :: "B" :: []

/-- The constant `NOTE_DISPLAY` (app.js lines 3-5): the 12 user-facing note labels. -/
def NOTE_DISPLAY : List String :=
  ["A", "A#/Bb", "B", "C", "C#/Db", "D", "D#/Eb", "E", "F", "F#/Gb", "G", "G#/Ab"]

/-- The constant `STRING_START_INDICES` (app.js line 9): index into `NOTES` of each open
string, high-E first; index 5 is the low E string. -/
def STRING_START_INDICES : List Nat := [4, 11, 7, 2, 9, 4]

/-- The constant `FRET_COUNT` (app.js line 11): frets 0 through 12. -/
def FRET_COUNT : Nat := 13

/-- The function `getNoteAtPosition` (app.js lines 98-102).  `NOTES[(start + fret) % 12]`.
An out-of-range `stringIndex` makes the JS function return `undefined`
(via `NaN` indexing), modelled by `none`. -/
def getNoteAtPosition (stringIndex fret : Nat) : Option String :=
  (STRING_START_INDICES[stringIndex]?).bind fun startIndex =>
    NOTES[(startIndex + fret) % 12]?

/-- The `displayMap` object literal of `getNoteDisplayName`
(app.js lines 109-113). -/
def displayMap : List (String × String) :=
  [("C", "C"), ("C#", "C#/Db"), ("D", "D"), ("D#", "D#/Eb"),
   ("E", "E"), ("F", "F"), ("F#", "F#/Gb"), ("G", "G"),
   ("G#", "G#/Ab"), ("A", "A"), ("A#", "A#/Bb"), ("B", "B")]

/-- The function `getNoteDisplayName` (app.js lines 104-115): looks the note up in
`displayMap`; an `undefined` argument or an absent key yields `undefined`. -/
def getNoteDisplayName (note : Option String) : Option String :=
  note.bind fun n => (displayMap.find? fun p => p.1 == n).map fun p => p.2

/-- The `settings` record (app.js lines 27-30): boolean masks over the 13
frets and the 6 strings. -/
structure Settings where
  frets : List Bool
  strings : List Bool
deriving DecidableEq, Repr

/-- The initial value of `settings` (app.js lines 27-30): everything
enabled. -/
def defaultSettings : Settings :=
  { frets := [true, true, true, true, true, true, true,
              true, true, true, true, true, true],
    strings := [true, true, true, true, true, true] }

/-- The outcome of reading and `JSON.parse`-ing the persisted settings key:
the key can be absent, the JSON can fail to parse (the `catch` branch), or
it parses into an object whose `frets` / `strings` properties each are
either absent (or not an array, collapsed to `none`) or an array of
booleans. -/
inductive StoredSettings where
  | missing : StoredSettings
  | corrupt : StoredSettings
  | parsed : Option (List Bool) → Option (List Bool) → StoredSettings
deriving DecidableEq, Repr

/-- The function `loadSettings` (app.js lines 32-48), acting on the in-memory `settings`
value `current`: each stored field is kept only when it is an array of the
expected length (13 frets, 6 strings); otherwise the current field
survives.  Parse failures are swallowed by the `catch`. -/
def loadSettings (current : Settings) : StoredSettings → Settings
  | StoredSettings.missing => current
  | StoredSettings.corrupt => current
  | StoredSettings.parsed fr st =>
    let frets := match fr with
      | some l => if l.length = 13 then l else current.frets
      | none => current.frets
    let strings := match st with
      | some l => if l.length = 6 then l else current.strings
      | none => current.strings
    { frets := frets, strings := strings }

/-- The fret-toggle click handler (app.js lines 483-497): flips
`settings.frets[fret]`, except that disabling the last enabled fret is
rejected before any mutation (`if (!newValue && activeCount <= 1) return`). -/
def toggleFret (s : Settings) (fret : Nat) : Settings :=
  let newValue := !(s.frets.getD fret false)
  let activeCount := (s.frets.filter id).length
  if !newValue && decide (activeCount ≤ 1) then s
  else { s with frets := s.frets.set fret newValue }

/-- The string-toggle click handler (app.js lines 500-514), same guard as
`toggleFret` on the strings mask. -/
def toggleString (s : Settings) (string : Nat) : Settings :=
  let newValue := !(s.strings.getD string false)
  let activeCount := (s.strings.filter id).length
  if !newValue && decide (activeCount ≤ 1) then s
  else { s with strings := s.strings.set string newValue }

/-- The frets-all button handler (app.js lines 517-521):
`settings.frets.map(() => true)`. -/
def selectAllFrets (s : Settings) : Settings :=
  { s with frets := s.frets.map fun _ => true }

/-- The frets-none button handler (app.js lines 523-528):
`settings.frets.map((_, i) => i === 0)` — only fret 0 stays enabled. -/
def selectNoneFrets (s : Settings) : Settings :=
  { s with frets := s.frets.mapIdx fun i _ => i == 0 }

/-- The strings-all button handler (app.js lines 531-535). -/
def selectAllStrings (s : Settings) : Settings :=
  { s with strings := s.strings.map fun _ => true }

/-- The strings-none button handler (app.js lines 537-542): only string 0
stays enabled. -/
def selectNoneStrings (s : Settings) : Settings :=
  { s with strings := s.strings.mapIdx fun i _ => i == 0 }

/-- A boolean mask has at least one enabled entry. -/
def hasEnabled (l : List Bool) : Prop := l.any id = true

instance (l : List Bool) : Decidable (hasEnabled l) := by
  unfold hasEnabled; infer_instance

/-- The eligible-index computation of `newPosition` (app.js lines 283-288):
`.map((enabled, i) => enabled ? i : -1).filter(i => i >= 0)`. -/
def validIndices (l : List Bool) : List Int :=
  (l.mapIdx fun i enabled => if enabled then (i : Int) else -1).filter
    fun i => decide (0 ≤ i)

/-- The mutable `currentPosition` (app.js line 15).  Each component is the result of a
JS array read and can be `undefined` (`none`) when the eligible list is
empty. -/
structure Position where
  string : Option Int
  fret : Option Int
deriving DecidableEq, Repr

/-- The round data set by `newPosition`: the drawn position, the display
name of the correct note (`correctNote`, `undefined` when the position is
degenerate), and the cleared `hasAnswered` flag. -/
structure RoundState where
  position : Position
  correctNote : Option String
  hasAnswered : Bool
deriving DecidableEq, Repr

/-- The `correctNote` computation (app.js line 294):
`getNoteDisplayName(getNoteAtPosition(string, fret))` where either
coordinate may be `undefined`, in which case `NaN` indexing makes the JS
result `undefined`. -/
def correctNoteAt (pos : Position) : Option String :=
  match pos.string, pos.fret with
  | some st, some f => getNoteDisplayName (getNoteAtPosition st.toNat f.toNat)
  | _, _ => none

/-- The state change performed by `newPosition` (app.js lines 282-295): draw
`validStrings[iS]` and `validFrets[iF]` (the JS indices are
`Math.floor(Math.random() * length)`, which is `0` on an empty list, so that
read returns `undefined`), compute `correctNote`, clear `hasAnswered`. -/
def newPositionCore (s : Settings) (iS iF : Nat) : RoundState :=
  let validFrets := validIndices s.frets
  let validStrings := validIndices s.strings
  let pos : Position := { string := validStrings[iS]?, fret := validFrets[iF]? }
  { position := pos, correctNote := correctNoteAt pos, hasAnswered := false }

/-- The error condition the specification assigns to `newRound()` when an
eligible set is empty. -/
inductive RoundError where
  | invalidConfiguration : RoundError
deriving DecidableEq, Repr

/-- The function `newPosition` (app.js lines 275-310) with an error-aware codomain so
that the specified `InvalidConfiguration` outcome is expressible.  The JS
body contains no guard and none of its operations can throw, so every input
produces a normally-completed round state. -/
def newPosition (s : Settings) (iS iF : Nat) : Except RoundError RoundState :=
  Except.ok (newPositionCore s iS iF)

/-- A `{correct, total}` counter pair. -/
structure CountPair where
  correct : Nat
  total : Nat
deriving DecidableEq, Repr

/-- The persisted stats record (`createEmptyStats` shape, app.js lines
70-87).  `noteStats` is a JS object keyed by the `correctNote` value, which
can be `undefined`; `fretStats` is keyed by `currentPosition.fret`,
likewise possibly `undefined` — `Option` keys model the distinct
`"undefined"` object key. -/
structure StatsRecord where
  totalCorrect : Nat
  totalAttempts : Nat
  noteStats : List (Option String × CountPair)
  fretStats : List (Option Int × CountPair)
deriving DecidableEq, Repr

/-- The function `createEmptyStats` (app.js lines 70-87): every display note and every
fret 0-12 pre-seeded at `{correct: 0, total: 0}`. -/
def createEmptyStats : StatsRecord :=
  { totalCorrect := 0,
    totalAttempts := 0,
    noteStats := NOTE_DISPLAY.map fun n => (some n, { correct := 0, total := 0 }),
    fretStats := (List.range FRET_COUNT).map
      fun i => (some (i : Int), { correct := 0, total := 0 }) }

/-- Object property lookup on an association list: the (unique-keyed in
practice) first matching entry, `undefined` (`none`) when absent. -/
def lookupCP [BEq α] (l : List (α × CountPair)) (k : α) : Option CountPair :=
  (l.find? fun p => p.1 == k).map fun p => p.2

/-- The lazy-seeding step of `handleGuess` (app.js lines 329-331 and
338-340): `if (!stats.xxx[k]) stats.xxx[k] = {correct: 0, total: 0}`. -/
def ensureEntry [BEq α] (l : List (α × CountPair)) (k : α) :
    List (α × CountPair) :=
  if (lookupCP l k).isSome then l else l ++ [(k, { correct := 0, total := 0 })]

/-- The increment step of `handleGuess` (app.js lines 332-334 and 341-343):
`stats.xxx[k].total++; if (isCorrect) stats.xxx[k].correct++`. -/
def incEntry [BEq α] (l : List (α × CountPair)) (k : α) (correct : Bool) :
    List (α × CountPair) :=
  l.map fun p =>
    if p.1 == k then
      (p.1, { correct := p.2.correct + (if correct then 1 else 0),
              total := p.2.total + 1 })
    else p

/-- Seed-then-increment of one counter map. -/
def bump [BEq α] (l : List (α × CountPair)) (k : α) (correct : Bool) :
    List (α × CountPair) :=
  incEntry (ensureEntry l k) k correct

/-- The stats mutation performed by `handleGuess` (app.js lines 321-344),
factored as the specification's `recordAttempt(record, note, fret,
correct)`: bump the global counters, the per-note entry keyed by the
round's correct note, and the per-fret entry keyed by the round's fret. -/
def recordAttempt (rec : StatsRecord) (note : Option String) (fret : Option Int)
    (correct : Bool) : StatsRecord :=
  { totalCorrect := rec.totalCorrect + (if correct then 1 else 0),
    totalAttempts := rec.totalAttempts + 1,
    noteStats := bump rec.noteStats note correct,
    fretStats := bump rec.fretStats fret correct }

/-- Sum of the `total` fields of a counter map. -/
def sumTotals [BEq α] (l : List (α × CountPair)) : Nat :=
  (l.map fun p => p.2.total).sum

/-- A successfully `JSON.parse`-d stats value of arbitrary shape: each of
the four expected properties may be absent (`none`).  `loadStats` performs
no validation, so such a value flows out of it unchanged. -/
structure LooseStats where
  totalCorrect : Option Nat
  totalAttempts : Option Nat
  noteStats : Option (List (Option String × CountPair))
  fretStats : Option (List (Option Int × CountPair))
deriving DecidableEq, Repr

/-- View of a well-formed record as a parsed value with all properties
present. -/
def toLoose (rec : StatsRecord) : LooseStats :=
  { totalCorrect := some rec.totalCorrect,
    totalAttempts := some rec.totalAttempts,
    noteStats := some rec.noteStats,
    fretStats := some rec.fretStats }

/-- The outcome of reading and parsing the persisted stats key. -/
inductive StoredStats where
  | missing : StoredStats
  | corrupt : StoredStats
  | parsed : LooseStats → StoredStats
deriving DecidableEq, Repr

/-- The function `loadStats` (app.js lines 58-68): a missing key or a parse failure
(caught exception) yields `createEmptyStats()`, while a successfully parsed
value is returned exactly as parsed, without any shape validation. -/
def loadStats : StoredStats → LooseStats
  | StoredStats.missing => toLoose createEmptyStats
  | StoredStats.corrupt => toLoose createEmptyStats
  | StoredStats.parsed v => v

/-- The module-level mutable state of app.js (lines 15-30) together with the
stats storage slot: `currentPosition`, `correctNote`, `hasAnswered`, the
session counters, the pending `autoAdvanceTimeout` (modelled as the
scheduled delay, `none` when no timeout is pending), the stats key of
localStorage (`none` when absent), and `settings`. -/
structure AppState where
  currentPosition : Position
  correctNote : Option String
  hasAnswered : Bool
  sessionCorrect : Nat
  sessionTotal : Nat
  pendingAdvance : Option Nat
  storedStats : Option StatsRecord
  settings : Settings
deriving DecidableEq, Repr

/-- The function `loadStats` as used on the normal path, where the stored value (written
only by `saveStats`) is a well-formed record: absent key gives
`createEmptyStats()`. -/
def loadStatsApp (stored : Option StatsRecord) : StatsRecord :=
  stored.getD createEmptyStats

/-- The result communicated by `handleGuess`: either the already-answered
no-op, or the computed feedback `{isCorrect, correctAnswer}`. -/
inductive GuessOutcome where
  | alreadyAnswered : GuessOutcome
  | answered : Bool → Option String → GuessOutcome
deriving DecidableEq, Repr

/-- The function `handleGuess` (app.js lines 313-373): returns immediately when
`hasAnswered` is set; otherwise marks the round answered, compares the
guess with `correctNote`, applies the stats mutation (lines 321-344, see
`recordAttempt`), bumps the session counters, writes the stats back, and on
a correct guess schedules the auto-advance
(`setTimeout(newPosition, 800)`). -/
def handleGuess (st : AppState) (note : String) : GuessOutcome × AppState :=
  if st.hasAnswered then (GuessOutcome.alreadyAnswered, st)
  else
    let isCorrect := st.correctNote == some note
    let stats := loadStatsApp st.storedStats
    let stats := recordAttempt stats st.correctNote st.currentPosition.fret isCorrect
    (GuessOutcome.answered isCorrect st.correctNote,
      { st with
        hasAnswered := true,
        sessionCorrect := st.sessionCorrect + (if isCorrect then 1 else 0),
        sessionTotal := st.sessionTotal + 1,
        storedStats := some stats,
        pendingAdvance := if isCorrect then some 800 else st.pendingAdvance })

/-- The function `newPosition` as a transition on the whole app state (app.js lines
275-310): first clears any pending auto-advance timeout (lines 276-280),
then installs the freshly drawn round data. -/
def newRoundStep (st : AppState) (iS iF : Nat) : AppState :=
  let r := newPositionCore st.settings iS iF
  { st with
    pendingAdvance := none,
    currentPosition := r.position,
    correctNote := r.correctNote,
    hasAnswered := false }

/-- The confirmed branch of the reset-stats click handler (app.js lines
450-458): removes the stats key and zeroes both session counters. -/
def resetStats (st : AppState) : AppState :=
  { st with
    storedStats := none,
    sessionCorrect := 0,
    sessionTotal := 0 }

/-- Incrementing one counter pair: `total` by one, `correct` by one iff the
guess was correct. -/
def incCP (c : Bool) (v : CountPair) : CountPair :=
  { correct := v.correct + (if c then 1 else 0), total := v.total + 1 }

/-- The key list of a counter map. -/
def keysOf (l : List (α × CountPair)) : List α := l.map fun p => p.1

theorem lookupCP_cons [BEq α] (p : α × CountPair) (l : List (α × CountPair))
    (k : α) :
    lookupCP (p :: l) k = if p.1 == k then some p.2 else lookupCP l k := by
  cases h : p.1 == k <;> simp [lookupCP, List.find?, h]

theorem lookupCP_append [BEq α] (l₁ l₂ : List (α × CountPair)) (k : α) :
    lookupCP (l₁ ++ l₂) k =
      ((lookupCP l₁ k).map id).or (lookupCP l₂ k) := by
  induction l₁ with
  | nil => simp [lookupCP]
  | cons p l ih =>
    cases h : p.1 == k <;>
      simp [lookupCP_cons, h, List.cons_append, ih, Option.or]

theorem lookupCP_eq_none_iff [BEq α] [LawfulBEq α]
    (l : List (α × CountPair)) (k : α) :
    lookupCP l k = none ↔ k ∉ keysOf l := by
  induction l with
  | nil => simp [lookupCP, keysOf]
  | cons p l ih =>
    cases h : p.1 == k
    · simp only [lookupCP_cons, h, if_neg Bool.false_ne_true, keysOf,
        List.map_cons, List.mem_cons]
      rw [beq_eq_false_iff_ne] at h
      constructor
      · intro hn hk
        rcases hk with hk | hk
        · exact h hk.symm
        · exact ((ih.mp hn) hk)
      · intro hn
        exact ih.mpr fun hk => hn (Or.inr hk)
    · rw [beq_iff_eq] at h
      subst h
      simp [lookupCP_cons, keysOf]

theorem incEntry_cons [BEq α] (p : α × CountPair) (l : List (α × CountPair))
    (k : α) (c : Bool) :
    incEntry (p :: l) k c =
      (if p.1 == k then (p.1, incCP c p.2) else p) :: incEntry l k c := by
  cases h : p.1 == k <;> simp [incEntry, incCP, h]

theorem lookupCP_incEntry_self [BEq α] [LawfulBEq α]
    (l : List (α × CountPair)) (k : α) (c : Bool) :
    lookupCP (incEntry l k c) k = (lookupCP l k).map (incCP c) := by
  induction l with
  | nil => simp [lookupCP, incEntry]
  | cons p l ih =>
    rw [incEntry_cons]
    cases h : p.1 == k
    · simp only [h, Bool.false_eq_true, if_false]
      rw [lookupCP_cons, lookupCP_cons, h, if_neg Bool.false_ne_true,
        if_neg Bool.false_ne_true, ih]
    · simp only [h, if_true]
      rw [lookupCP_cons, lookupCP_cons, h]
      simp

theorem lookupCP_incEntry_ne [BEq α] [LawfulBEq α]
    (l : List (α × CountPair)) (k k' : α) (c : Bool) (hne : k' ≠ k) :
    lookupCP (incEntry l k c) k' = lookupCP l k' := by
  induction l with
  | nil => simp [lookupCP, incEntry]
  | cons p l ih =>
    rw [incEntry_cons]
    cases h : p.1 == k
    · simp only [h, Bool.false_eq_true, if_false]
      rw [lookupCP_cons, lookupCP_cons, ih]
    · simp only [h, if_true]
      rw [beq_iff_eq] at h
      have h' : (p.1 == k') = false := by
        rw [beq_eq_false_iff_ne, h]
        exact fun hk => hne hk.symm
      rw [lookupCP_cons, lookupCP_cons]
      simp only [h', Bool.false_eq_true, if_false, ih]

theorem lookupCP_ensureEntry_self [BEq α] [LawfulBEq α]
    (l : List (α × CountPair)) (k : α) :
    lookupCP (ensureEntry l k) k =
      some ((lookupCP l k).getD { correct := 0, total := 0 }) := by
  unfold ensureEntry
  cases h : lookupCP l k with
  | none =>
    simp only [h, Option.isSome_none, Bool.false_eq_true, if_false]
    rw [lookupCP_append, h]
    simp [lookupCP_cons, lookupCP]
  | some v => simp [h]

theorem lookupCP_ensureEntry_ne [BEq α] [LawfulBEq α]
    (l : List (α × CountPair)) (k k' : α) (hne : k' ≠ k) :
    lookupCP (ensureEntry l k) k' = lookupCP l k' := by
  unfold ensureEntry
  cases h : (lookupCP l k).isSome
  · simp only [h, Bool.false_eq_true, if_false]
    rw [lookupCP_append]
    have h' : (k == k') = false := by
      rw [beq_eq_false_iff_ne]
      exact fun hk => hne hk.symm
    cases h2 : lookupCP l k' <;> simp [lookupCP_cons, lookupCP, h', Option.or]
  · simp [h]

theorem lookupCP_bump_self [BEq α] [LawfulBEq α]
    (l : List (α × CountPair)) (k : α) (c : Bool) :
    lookupCP (bump l k c) k =
      some (incCP c ((lookupCP l k).getD { correct := 0, total := 0 })) := by
  unfold bump
  rw [lookupCP_incEntry_self, lookupCP_ensureEntry_self]
  rfl

theorem lookupCP_bump_ne [BEq α] [LawfulBEq α]
    (l : List (α × CountPair)) (k k' : α) (c : Bool) (hne : k' ≠ k) :
    lookupCP (bump l k c) k' = lookupCP l k' := by
  unfold bump
  rw [lookupCP_incEntry_ne (ensureEntry l k) k k' c hne, lookupCP_ensureEntry_ne]
  exact hne

theorem sumTotals_cons [BEq α] (p : α × CountPair) (l : List (α × CountPair)) :
    sumTotals (p :: l) = p.2.total + sumTotals l := by
  simp [sumTotals]

theorem sumTotals_append [BEq α] (l₁ l₂ : List (α × CountPair)) :
    sumTotals (l₁ ++ l₂) = sumTotals l₁ + sumTotals l₂ := by
  simp [sumTotals]

theorem sumTotals_ensureEntry [BEq α] (l : List (α × CountPair)) (k : α) :
    sumTotals (ensureEntry l k) = sumTotals l := by
  unfold ensureEntry
  cases h : (lookupCP l k).isSome
  · simp only [h, Bool.false_eq_true, if_false]
    rw [sumTotals_append]
    simp [sumTotals]
  · simp [h]

theorem incEntry_of_not_mem [BEq α] [LawfulBEq α]
    (l : List (α × CountPair)) (k : α) (c : Bool) (hk : k ∉ keysOf l) :
    incEntry l k c = l := by
  induction l with
  | nil => rfl
  | cons p l ih =>
    simp only [keysOf, List.map_cons, List.mem_cons, not_or] at hk
    have h : (p.1 == k) = false := by
      rw [beq_eq_false_iff_ne]
      exact fun he => hk.1 he.symm
    rw [incEntry_cons, h, if_neg Bool.false_ne_true, ih hk.2]

theorem sumTotals_incEntry [BEq α] [LawfulBEq α]
    (l : List (α × CountPair)) (k : α) (c : Bool)
    (hd : (keysOf l).Nodup) (hs : (lookupCP l k).isSome = true) :
    sumTotals (incEntry l k c) = sumTotals l + 1 := by
  induction l with
  | nil => simp [lookupCP] at hs
  | cons p l ih =>
    simp only [keysOf, List.map_cons, List.nodup_cons] at hd
    rw [incEntry_cons]
    cases h : p.1 == k
    · rw [lookupCP_cons, h, if_neg Bool.false_ne_true] at hs
      simp only [h, Bool.false_eq_true, if_false]
      rw [sumTotals_cons, sumTotals_cons, ih hd.2 hs]
      omega
    · simp only [h, if_true]
      rw [sumTotals_cons, sumTotals_cons]
      rw [beq_iff_eq] at h
      have : incEntry l k c = l := by
        apply incEntry_of_not_mem
        rw [← h]
        exact hd.1
      rw [this]
      simp [incCP]
      omega

theorem keysOf_incEntry [BEq α] (l : List (α × CountPair)) (k : α) (c : Bool) :
    keysOf (incEntry l k c) = keysOf l := by
  induction l with
  | nil => rfl
  | cons p l ih =>
    rw [incEntry_cons]
    cases h : p.1 == k
    · simp only [h, Bool.false_eq_true, if_false, keysOf, List.map_cons]
      simp only [keysOf] at ih
      rw [ih]
    · simp only [h, if_true, keysOf, List.map_cons]
      simp only [keysOf] at ih
      rw [ih]

theorem nodup_keysOf_ensureEntry [BEq α] [LawfulBEq α]
    (l : List (α × CountPair)) (k : α) (hd : (keysOf l).Nodup) :
    (keysOf (ensureEntry l k)).Nodup := by
  unfold ensureEntry
  cases h : (lookupCP l k).isSome
  · simp only [h, Bool.false_eq_true, if_false]
    have hk : k ∉ keysOf l := by
      rw [← lookupCP_eq_none_iff l k]
      cases h2 : lookupCP l k
      · rfl
      · rw [h2] at h; simp at h
    simp only [keysOf, List.map_append, List.map_cons, List.map_nil]
    rw [List.nodup_append]
    refine ⟨hd, List.nodup_singleton k, ?_⟩
    intro a ha hb
    simp only [List.mem_singleton] at hb
    subst hb
    exact hk ha
  · simpa [h] using hd

theorem lookupCP_ensureEntry_isSome [BEq α] [LawfulBEq α]
    (l : List (α × CountPair)) (k : α) :
    (lookupCP (ensureEntry l k) k).isSome = true := by
  rw [lookupCP_ensureEntry_self]
  rfl

theorem sumTotals_bump [BEq α] [LawfulBEq α]
    (l : List (α × CountPair)) (k : α) (c : Bool) (hd : (keysOf l).Nodup) :
    sumTotals (bump l k c) = sumTotals l + 1 := by
  unfold bump
  rw [sumTotals_incEntry (ensureEntry l k) k c (nodup_keysOf_ensureEntry l k hd)
    (lookupCP_ensureEntry_isSome l k), sumTotals_ensureEntry]

theorem nodup_keysOf_bump [BEq α] [LawfulBEq α]
    (l : List (α × CountPair)) (k : α) (c : Bool) (hd : (keysOf l).Nodup) :
    (keysOf (bump l k c)).Nodup := by
  unfold bump
  rw [keysOf_incEntry]
  exact nodup_keysOf_ensureEntry l k hd

/-- The bookkeeping invariant of the stats record: the per-fret map has
pairwise-distinct keys and the grand total equals the sum of the per-fret
totals. -/
def statsInv (r : StatsRecord) : Prop :=
  (keysOf r.fretStats).Nodup ∧ r.totalAttempts = sumTotals r.fretStats

theorem statsInv_createEmptyStats : statsInv createEmptyStats := by
  constructor <;> decide

theorem statsInv_recordAttempt (r : StatsRecord) (n : Option String)
    (f : Option Int) (c : Bool) (h : statsInv r) :
    statsInv (recordAttempt r n f c) := by
  obtain ⟨hd, hs⟩ := h
  constructor
  · exact nodup_keysOf_bump r.fretStats f c hd
  · show r.totalAttempts + 1 = sumTotals (bump r.fretStats f c)
    rw [sumTotals_bump r.fretStats f c hd, hs]

/-- One quiz attempt: the round's correct-note key, the fret key, and
whether the guess was correct. -/
def applyAttempt (r : StatsRecord) (a : Option String × Option Int × Bool) :
    StatsRecord :=
  recordAttempt r a.1 a.2.1 a.2.2

theorem statsInv_foldl (attempts : List (Option String × Option Int × Bool))
    (r : StatsRecord) (h : statsInv r) :
    statsInv (attempts.foldl applyAttempt r) := by
  induction attempts generalizing r with
  | nil => exact h
  | cons a rest ih =>
    exact ih (applyAttempt r a) (statsInv_recordAttempt r a.1 a.2.1 a.2.2 h)

/-- Claim C3: starting from the default-seeded record, each
`recordAttempt(record, note, fret, correct)` bumps `totalAttempts` and the
addressed per-note and per-fret `total` fields by exactly one (and the
`correct` fields by one iff `correct`), the grand total always equals the
sum of the per-fret totals, and the two-attempt scenario on note "A", fret
0 produces `noteStats["A"] = {correct: 1, total: 2}`, `totalAttempts = 2`,
`totalCorrect = 1`. -/
theorem recordAttempt_counts
    (attempts : List (Option String × Option Int × Bool)) :
    (attempts.foldl applyAttempt createEmptyStats).totalAttempts
      = sumTotals (attempts.foldl applyAttempt createEmptyStats).fretStats
    ∧ (∀ (n : Option String) (f : Option Int) (c : Bool),
        (recordAttempt (attempts.foldl applyAttempt createEmptyStats) n f c).totalAttempts
          = (attempts.foldl applyAttempt createEmptyStats).totalAttempts + 1
        ∧ (recordAttempt (attempts.foldl applyAttempt createEmptyStats) n f c).totalCorrect
          = (attempts.foldl applyAttempt createEmptyStats).totalCorrect
              + (if c then 1 else 0)
        ∧ lookupCP (recordAttempt (attempts.foldl applyAttempt createEmptyStats) n f c).noteStats n
          = some (incCP c
              ((lookupCP (attempts.foldl applyAttempt createEmptyStats).noteStats n).getD
                { correct := 0, total := 0 }))
        ∧ lookupCP (recordAttempt (attempts.foldl applyAttempt createEmptyStats) n f c).fretStats f
          = some (incCP c
              ((lookupCP (attempts.foldl applyAttempt createEmptyStats).fretStats f).getD
                { correct := 0, total := 0 })))
    ∧ lookupCP (recordAttempt (recordAttempt createEmptyStats (some "A") (some 0) true)
        (some "A") (some 0) false).noteStats (some "A")
        = some { correct := 1, total := 2 }
    ∧ (recordAttempt (recordAttempt createEmptyStats (some "A") (some 0) true)
        (some "A") (some 0) false).totalAttempts = 2
    ∧ (recordAttempt (recordAttempt createEmptyStats (some "A") (some 0) true)
        (some "A") (some 0) false).totalCorrect = 1 := by
  refine ⟨?_, ?_, by decide, by decide, by decide⟩
  · exact (statsInv_foldl attempts createEmptyStats statsInv_createEmptyStats).2
  · intro n f c
    refine ⟨rfl, rfl, ?_, ?_⟩
    · exact lookupCP_bump_self _ n c
    · exact lookupCP_bump_self _ f c

/-- Claim C2: once a round has been answered, a further `handleGuess` call
is a pure no-op — it reports the already-answered sentinel and leaves the
entire state (stats storage and session counters included) unchanged. -/
theorem handleGuess_already_answered (st : AppState) (note : String)
    (h : st.hasAnswered = true) :
    handleGuess st note = (GuessOutcome.alreadyAnswered, st) := by
  simp [handleGuess, h]

/-- A concrete answered round used to witness the already-answered no-op. -/
def stAnswered : AppState :=
  { currentPosition := { string := some 0, fret := some 0 },
    correctNote := some "E",
    hasAnswered := true,
    sessionCorrect := 2,
    sessionTotal := 3,
    pendingAdvance := none,
    storedStats := none,
    settings := defaultSettings }

theorem handleGuess_already_answered_witness :
    stAnswered.hasAnswered = true
    ∧ handleGuess stAnswered "A" = (GuessOutcome.alreadyAnswered, stAnswered) :=
  ⟨rfl, handleGuess_already_answered stAnswered "A" rfl⟩

/-- Claim C10: the per-note entry written by a guess is the one keyed by
the round's correct answer: on a wrong guess its `total` grows by one with
`correct` untouched, and the entry keyed by the guessed note is left
exactly as it was. -/
theorem handleGuess_keys_correct_answer (st : AppState) (note ans : String)
    (h1 : st.hasAnswered = false) (h2 : st.correctNote = some ans)
    (h3 : note ≠ ans) :
    (handleGuess st note).2.storedStats
      = some (recordAttempt (loadStatsApp st.storedStats) (some ans)
          st.currentPosition.fret false)
    ∧ lookupCP (recordAttempt (loadStatsApp st.storedStats) (some ans)
          st.currentPosition.fret false).noteStats (some ans)
      = some (incCP false
          ((lookupCP (loadStatsApp st.storedStats).noteStats (some ans)).getD
            { correct := 0, total := 0 }))
    ∧ lookupCP (recordAttempt (loadStatsApp st.storedStats) (some ans)
          st.currentPosition.fret false).noteStats (some note)
      = lookupCP (loadStatsApp st.storedStats).noteStats (some note) := by
  have hbeq : (st.correctNote == some note) = false := by
    rw [h2, beq_eq_false_iff_ne]
    intro he
    exact h3 (Option.some_injective String he).symm
  have hbeq2 : (ans == note) = false := by
    rw [beq_eq_false_iff_ne]
    exact fun he => h3 he.symm
  refine ⟨?_, ?_, ?_⟩
  · simp [handleGuess, h1, hbeq, h2, hbeq2]
  · exact lookupCP_bump_self _ (some ans) false
  · exact lookupCP_bump_ne _ (some ans) (some note) false
      fun he => h3 (Option.some_injective String he)

/-- A concrete unanswered round (correct answer "E") used to witness the
guess-handling theorems. -/
def stFresh : AppState :=
  { currentPosition := { string := some 5, fret := some 0 },
    correctNote := some "E",
    hasAnswered := false,
    sessionCorrect := 0,
    sessionTotal := 0,
    pendingAdvance := none,
    storedStats := none,
    settings := defaultSettings }

theorem handleGuess_keys_correct_answer_witness :
    (handleGuess stFresh "A").2.storedStats
      = some (recordAttempt (loadStatsApp stFresh.storedStats) (some "E")
          stFresh.currentPosition.fret false)
    ∧ lookupCP (recordAttempt (loadStatsApp stFresh.storedStats) (some "E")
          stFresh.currentPosition.fret false).noteStats (some "E")
      = some (incCP false
          ((lookupCP (loadStatsApp stFresh.storedStats).noteStats (some "E")).getD
            { correct := 0, total := 0 }))
    ∧ lookupCP (recordAttempt (loadStatsApp stFresh.storedStats) (some "E")
          stFresh.currentPosition.fret false).noteStats (some "A")
      = lookupCP (loadStatsApp stFresh.storedStats).noteStats (some "A") :=
  handleGuess_keys_correct_answer stFresh "A" "E" rfl rfl (by decide)

/-- Claim C9: a fresh round never has a pending auto-advance (`newRound`
clears any pending timeout), a correct guess schedules the 800-unit
auto-advance, and an incorrect guess schedules nothing — the round stays
answered awaiting an explicit advance. -/
theorem autoAdvance_policy (st : AppState) (note : String) (iS iF : Nat) :
    (newRoundStep st iS iF).pendingAdvance = none
    ∧ (st.hasAnswered = false → st.correctNote = some note →
        (handleGuess st note).2.pendingAdvance = some 800
        ∧ (handleGuess st note).2.hasAnswered = true)
    ∧ (st.hasAnswered = false → st.correctNote ≠ some note →
        (handleGuess st note).2.pendingAdvance = st.pendingAdvance
        ∧ (handleGuess st note).2.hasAnswered = true) := by
  refine ⟨rfl, ?_, ?_⟩
  · intro h1 h2
    have hbeq : (st.correctNote == some note) = true := by
      rw [h2]
      exact beq_self_eq_true (some note)
    constructor <;> simp [handleGuess, h1, hbeq]
  · intro h1 h2
    have hbeq : (st.correctNote == some note) = false := by
      rw [beq_eq_false_iff_ne]
      exact h2
    constructor <;> simp [handleGuess, h1, hbeq]

theorem autoAdvance_policy_witness :
    (newRoundStep stFresh 0 0).pendingAdvance = none
    ∧ (handleGuess stFresh "E").2.pendingAdvance = some 800
    ∧ (handleGuess stFresh "A").2.pendingAdvance = stFresh.pendingAdvance :=
  ⟨(autoAdvance_policy stFresh "E" 0 0).1,
   ((autoAdvance_policy stFresh "E" 0 0).2.1 rfl rfl).1,
   ((autoAdvance_policy stFresh "A" 0 0).2.2 rfl (by decide)).1⟩

/-- A state with non-zero session counters, showing that the reset handler
does touch them. -/
def stSession : AppState :=
  { currentPosition := { string := some 0, fret := some 7 },
    correctNote := some "B",
    hasAnswered := true,
    sessionCorrect := 3,
    sessionTotal := 5,
    pendingAdvance := none,
    storedStats := some createEmptyStats,
    settings := defaultSettings }

/-- Counterexample to claim C7 as stated: the reset-stats handler (app.js
lines 452-454) assigns `sessionCorrect = 0; sessionTotal = 0`, so the
session counters are NOT left unchanged. -/
theorem resetStats_changes_session :
    (resetStats stSession).sessionCorrect ≠ stSession.sessionCorrect
    ∧ (resetStats stSession).sessionTotal ≠ stSession.sessionTotal := by
  decide

/-- Claim C7 (amended): resetting stats clears the persisted record (a
subsequent load yields the default-seeded record) and also zeroes both
session counters, while the settings record and the remaining round state
are untouched. -/
theorem resetStats_effect (st : AppState) :
    (resetStats st).settings = st.settings
    ∧ (resetStats st).storedStats = none
    ∧ loadStatsApp (resetStats st).storedStats = createEmptyStats
    ∧ (resetStats st).sessionCorrect = 0
    ∧ (resetStats st).sessionTotal = 0
    ∧ (resetStats st).currentPosition = st.currentPosition
    ∧ (resetStats st).correctNote = st.correctNote
    ∧ (resetStats st).hasAnswered = st.hasAnswered
    ∧ (resetStats st).pendingAdvance = st.pendingAdvance := by
  refine ⟨rfl, rfl, rfl, rfl, rfl, rfl, rfl, rfl, rfl⟩

/-- Settings in which every fret is disabled (accepted verbatim by
`loadSettings` since the array has length 13). -/
def emptyFretSettings : Settings :=
  { frets := List.replicate 13 false, strings := List.replicate 6 true }

/-- Counterexample to claim C1 as stated: with an empty eligible fret set,
`newPosition` does not produce an `InvalidConfiguration` error — the JS
body has no guard, completes normally, and leaves `currentPosition.fret`
`undefined`. -/
theorem newPosition_empty_no_error :
    validIndices emptyFretSettings.frets = []
    ∧ newPosition emptyFretSettings 0 0
        ≠ Except.error RoundError.invalidConfiguration
    ∧ newPosition emptyFretSettings 0 0
        = Except.ok
            { position := { string := some 0, fret := none },
              correctNote := none,
              hasAnswered := false } := by
  refine ⟨by decide, by simp [newPosition], by rfl⟩

/-- Claim C1 (amended): `newPosition` never fails: it always completes
normally, and when an eligible set is empty the corresponding position
component is simply `undefined` (`none`) — no `InvalidConfiguration`
condition exists in the code, and nothing propagates to the caller. -/
theorem newPosition_never_fails (s : Settings) (iS iF : Nat) :
    newPosition s iS iF = Except.ok (newPositionCore s iS iF)
    ∧ (validIndices s.frets = [] →
        (newPositionCore s iS iF).position.fret = none)
    ∧ (validIndices s.strings = [] →
        (newPositionCore s iS iF).position.string = none) := by
  refine ⟨rfl, ?_, ?_⟩ <;> intro h <;> simp [newPositionCore, h]

theorem newPosition_never_fails_witness :
    newPosition emptyFretSettings 0 0
      = Except.ok (newPositionCore emptyFretSettings 0 0)
    ∧ (newPositionCore emptyFretSettings 0 0).position.fret = none :=
  ⟨(newPosition_never_fails emptyFretSettings 0 0).1,
   (newPosition_never_fails emptyFretSettings 0 0).2.1 (by decide)⟩

/-- Counterexample to claim C8 as stated: a stored value that parses to an
object with none of the expected fields is returned by `loadStats`
unchanged — no per-field defaults are substituted, so the result is not a
well-formed record. -/
theorem loadStats_no_per_field_defaults :
    (loadStats (StoredStats.parsed
      { totalCorrect := none, totalAttempts := none,
        noteStats := none, fretStats := none })).noteStats = none
    ∧ loadStats (StoredStats.parsed
        { totalCorrect := none, totalAttempts := none,
          noteStats := none, fretStats := none })
      ≠ toLoose createEmptyStats := by
  refine ⟨rfl, by decide⟩

/-- Claim C8 (amended): `loadStats` substitutes the complete default-seeded
record (every display note and every fret 0-12 at `{0, 0}`) when the key is
missing or the JSON does not parse, and never throws; but a successfully
parsed value is returned as-is, with no shape validation and no per-field
defaulting. -/
theorem loadStats_parse_or_default :
    loadStats StoredStats.missing = toLoose createEmptyStats
    ∧ loadStats StoredStats.corrupt = toLoose createEmptyStats
    ∧ (∀ v, loadStats (StoredStats.parsed v) = v)
    ∧ (∀ n, n ∈ NOTE_DISPLAY →
        lookupCP createEmptyStats.noteStats (some n)
          = some { correct := 0, total := 0 })
    ∧ (∀ i : Nat, i < FRET_COUNT →
        lookupCP createEmptyStats.fretStats (some (i : Int))
          = some { correct := 0, total := 0 }) := by
  refine ⟨rfl, rfl, fun v => rfl, by decide, by decide⟩

theorem loadStats_parse_or_default_witness :
    loadStats StoredStats.missing = toLoose createEmptyStats
    ∧ loadStats (StoredStats.parsed (toLoose createEmptyStats))
        = toLoose createEmptyStats
    ∧ lookupCP createEmptyStats.noteStats (some "A")
        = some { correct := 0, total := 0 }
    ∧ lookupCP createEmptyStats.fretStats (some (0 : Int))
        = some { correct := 0, total := 0 } :=
  ⟨loadStats_parse_or_default.1,
   loadStats_parse_or_default.2.2.1 (toLoose createEmptyStats),
   loadStats_parse_or_default.2.2.2.1 "A" (by decide),
   loadStats_parse_or_default.2.2.2.2 0 (by decide)⟩

/-- Claim C5: `getNoteAtPosition` is exactly modular pitch-class lookup
over the fixed standard-tuning table, and on the low-E string (index 5)
fret 0 displays "E", fret 12 displays "E" again, and fret 5 displays
"A". -/
theorem pitchClassAt_spec :
    (∀ s, s < 6 → ∀ f, f < 13 →
      getNoteAtPosition s f
        = NOTES[(STRING_START_INDICES.getD s 0 + f) % 12]?)
    ∧ getNoteDisplayName (getNoteAtPosition 5 0) = some "E"
    ∧ getNoteDisplayName (getNoteAtPosition 5 12) = some "E"
    ∧ getNoteDisplayName (getNoteAtPosition 5 5) = some "A" := by
  refine ⟨by decide, by decide, by decide, by decide⟩

theorem pitchClassAt_spec_witness :
    getNoteAtPosition 5 5
      = NOTES[(STRING_START_INDICES.getD 5 0 + 5) % 12]? :=
  pitchClassAt_spec.1 5 (by decide) 5 (by decide)

/-- Every member of the eligible-index list is a nonnegative index whose
settings entry is enabled. -/
theorem mem_validIndices (l : List Bool) (x : Int) (hx : x ∈ validIndices l) :
    ∃ n : Nat, x = (n : Int) ∧ l.getD n false = true := by
  unfold validIndices at hx
  rw [List.mem_filter] at hx
  obtain ⟨hmem, hpos⟩ := hx
  rw [List.mem_iff_get] at hmem
  obtain ⟨⟨i, hi⟩, hget⟩ := hmem
  have hi' : i < l.length := by
    have := List.length_mapIdx
      (l := l) (f := fun i enabled => if enabled then (i : Int) else -1)
    omega
  rw [List.get_mapIdx l _ i hi'] at hget
  cases hb : l.get ⟨i, hi'⟩
  · rw [hb] at hget
    simp only [Bool.false_eq_true, if_false] at hget
    rw [← hget] at hpos
    simp at hpos
  · rw [hb] at hget
    simp only [if_true] at hget
    refine ⟨i, hget.symm, ?_⟩
    rw [List.getD_eq_getElem?_getD, List.getElem?_eq_getElem hi']
    simpa using hb.symm

/-- Settings enabling only fret 0 on every string. -/
def fretZeroSettings : Settings :=
  { frets := true :: List.replicate 12 false,
    strings := List.replicate 6 true }

/-- Claim C6: whenever both eligible sets are non-empty (every legal random
draw is an index into the eligible lists), the drawn position's string and
fret are enabled in the settings; and with only fret 0 enabled every round
lands on fret 0. -/
theorem newPosition_eligible (s : Settings) (iS iF : Nat)
    (hS : iS < (validIndices s.strings).length)
    (hF : iF < (validIndices s.frets).length) :
    (∃ sn fn : Nat,
      (newPositionCore s iS iF).position.string = some (sn : Int)
      ∧ (newPositionCore s iS iF).position.fret = some (fn : Int)
      ∧ s.strings.getD sn false = true
      ∧ s.frets.getD fn false = true)
    ∧ (∀ jS : Nat, jS < 6 → ∀ jF : Nat, jF < 1 →
        (newPositionCore fretZeroSettings jS jF).position.fret = some 0) := by
  constructor
  · obtain ⟨sn, hsn_eq, hsn⟩ := mem_validIndices s.strings
      ((validIndices s.strings).get ⟨iS, hS⟩) (List.get_mem _ _ _)
    obtain ⟨fn, hfn_eq, hfn⟩ := mem_validIndices s.frets
      ((validIndices s.frets).get ⟨iF, hF⟩) (List.get_mem _ _ _)
    refine ⟨sn, fn, ?_, ?_, hsn, hfn⟩
    · show (validIndices s.strings)[iS]? = some (sn : Int)
      rw [List.getElem?_eq_getElem hS, ← hsn_eq]
      rfl
    · show (validIndices s.frets)[iF]? = some (fn : Int)
      rw [List.getElem?_eq_getElem hF, ← hfn_eq]
      rfl
  · decide

theorem newPosition_eligible_witness :
    ∃ sn fn : Nat,
      (newPositionCore defaultSettings 2 3).position.string = some (sn : Int)
      ∧ (newPositionCore defaultSettings 2 3).position.fret = some (fn : Int)
      ∧ defaultSettings.strings.getD sn false = true
      ∧ defaultSettings.frets.getD fn false = true :=
  (newPosition_eligible defaultSettings 2 3 (by decide) (by decide)).1

theorem hasEnabled_of_filter_pos (l : List Bool)
    (h : 0 < (l.filter id).length) : hasEnabled l := by
  obtain ⟨x, hx⟩ := List.exists_mem_of_length_pos h
  obtain ⟨hmem, hid⟩ := List.mem_filter.mp hx
  exact List.any_eq_true.mpr ⟨x, hmem, hid⟩

theorem hasEnabled_set_false (l : List Bool) (i : Nat)
    (h : 2 ≤ (l.filter id).length) : hasEnabled (l.set i false) := by
  induction l generalizing i with
  | nil => simp at h
  | cons b t ih =>
    cases i with
    | zero =>
      have ht : 0 < (t.filter id).length := by
        cases b <;> simp [List.filter_cons] at h ⊢ <;> omega
      have := hasEnabled_of_filter_pos t ht
      simpa [hasEnabled, List.set] using this
    | succ j =>
      cases b with
      | true => simp [hasEnabled, List.set]
      | false =>
        have ht : 2 ≤ (t.filter id).length := by
          simpa [List.filter_cons] using h
        have := ih j ht
        simpa [hasEnabled, List.set] using this

theorem hasEnabled_set_true (l : List Bool) (i : Nat)
    (h : i < l.length) : hasEnabled (l.set i true) := by
  induction l generalizing i with
  | nil => simp at h
  | cons b t ih =>
    cases i with
    | zero => simp [hasEnabled, List.set]
    | succ j =>
      cases b with
      | true => simp [hasEnabled, List.set]
      | false =>
        have := ih j (by simpa using h)
        simpa [hasEnabled, List.set] using this

theorem toggleFret_hasEnabled (s : Settings) (i : Nat)
    (h : hasEnabled s.frets) : hasEnabled (toggleFret s i).frets := by
  unfold toggleFret
  cases hv : s.frets.getD i false
  · simp only [hv, Bool.not_false, Bool.not_true, Bool.false_and,
      Bool.false_eq_true, if_false]
    rcases Nat.lt_or_ge i s.frets.length with hlt | hge
    · exact hasEnabled_set_true s.frets i hlt
    · rw [List.set_eq_of_length_le hge]
      exact h
  · by_cases hc : (s.frets.filter id).length ≤ 1
    · simp only [hv, Bool.not_true, Bool.not_false, Bool.true_and,
        decide_eq_true hc, if_true]
      exact h
    · simp only [hv, Bool.not_true, Bool.not_false, Bool.true_and,
        decide_eq_false hc, Bool.false_eq_true, if_false]
      exact hasEnabled_set_false s.frets i (by omega)

theorem toggleString_hasEnabled (s : Settings) (i : Nat)
    (h : hasEnabled s.strings) : hasEnabled (toggleString s i).strings := by
  unfold toggleString
  cases hv : s.strings.getD i false
  · simp only [hv, Bool.not_false, Bool.not_true, Bool.false_and,
      Bool.false_eq_true, if_false]
    rcases Nat.lt_or_ge i s.strings.length with hlt | hge
    · exact hasEnabled_set_true s.strings i hlt
    · rw [List.set_eq_of_length_le hge]
      exact h
  · by_cases hc : (s.strings.filter id).length ≤ 1
    · simp only [hv, Bool.not_true, Bool.not_false, Bool.true_and,
        decide_eq_true hc, if_true]
      exact h
    · simp only [hv, Bool.not_true, Bool.not_false, Bool.true_and,
        decide_eq_false hc, Bool.false_eq_true, if_false]
      exact hasEnabled_set_false s.strings i (by omega)

theorem hasEnabled_selectNoneList (l : List Bool) (h : l ≠ []) :
    hasEnabled (l.mapIdx fun i _ => i == 0) := by
  have hl : 0 < l.length := List.length_pos.mpr h
  have hl' : 0 < (l.mapIdx fun i _ => i == 0).length := by
    rw [List.length_mapIdx]
    exact hl
  have hg : (l.mapIdx fun i _ => i == 0).get ⟨0, hl'⟩ = true := by
    rw [List.get_mapIdx l _ 0 hl]
    rfl
  refine List.any_eq_true.mpr ⟨true, ?_, rfl⟩
  rw [← hg]
  exact List.get_mem _ _ _

theorem hasEnabled_selectAllList (l : List Bool) (h : l ≠ []) :
    hasEnabled (l.map fun _ => true) := by
  cases l with
  | nil => exact absurd rfl h
  | cons b t => simp [hasEnabled]

/-- Counterexample to claim C4 as stated: `loadSettings` keeps any stored
frets array of length 13, including the all-false one, so a record
reachable through `load` can have an empty eligible fret set — the
invariant is not enforced at the load boundary. -/
theorem loadSettings_allows_empty :
    ¬ hasEnabled (loadSettings defaultSettings
      (StoredSettings.parsed (some (List.replicate 13 false)) none)).frets := by
  decide

/-- Claim C4 (amended): the mutation operations preserve the at-least-one-
enabled invariant on both masks — a toggle that would disable the last
enabled entry is rejected as a no-op, select-all enables everything, and
select-none keeps index 0 enabled — but `loadSettings` preserves it only
when the stored arrays themselves satisfy it: a well-shaped all-false array
is accepted verbatim. -/
theorem settings_invariant (s : Settings) (i : Nat) :
    (hasEnabled s.frets → hasEnabled (toggleFret s i).frets)
    ∧ (toggleFret s i).strings = s.strings
    ∧ (hasEnabled s.strings → hasEnabled (toggleString s i).strings)
    ∧ (toggleString s i).frets = s.frets
    ∧ (s.frets ≠ [] → hasEnabled (selectAllFrets s).frets)
    ∧ (s.frets ≠ [] → hasEnabled (selectNoneFrets s).frets)
    ∧ (s.strings ≠ [] → hasEnabled (selectAllStrings s).strings)
    ∧ (s.strings ≠ [] → hasEnabled (selectNoneStrings s).strings)
    ∧ (selectAllFrets s).strings = s.strings
    ∧ (selectNoneFrets s).strings = s.strings
    ∧ (selectAllStrings s).frets = s.frets
    ∧ (selectNoneStrings s).frets = s.frets
    ∧ (s.frets.getD i false = true → (s.frets.filter id).length = 1 →
        toggleFret s i = s)
    ∧ (s.strings.getD i false = true → (s.strings.filter id).length = 1 →
        toggleString s i = s) := by
  refine ⟨toggleFret_hasEnabled s i, ?_, toggleString_hasEnabled s i, ?_,
    fun h => hasEnabled_selectAllList s.frets h,
    fun h => hasEnabled_selectNoneList s.frets h,
    fun h => hasEnabled_selectAllList s.strings h,
    fun h => hasEnabled_selectNoneList s.strings h,
    rfl, rfl, rfl, rfl, ?_, ?_⟩
  · unfold toggleFret
    dsimp only
    split <;> rfl
  · unfold toggleString
    dsimp only
    split <;> rfl
  · intro h1 h2
    rw [List.getD_eq_getElem?_getD] at h1
    unfold toggleFret
    simp [h1, h2]
  · intro h1 h2
    rw [List.getD_eq_getElem?_getD] at h1
    unfold toggleString
    simp [h1, h2]

theorem settings_invariant_witness :
    hasEnabled (toggleFret defaultSettings 0).frets
    ∧ hasEnabled (selectNoneFrets defaultSettings).frets
    ∧ toggleFret fretZeroSettings 0 = fretZeroSettings := by
  obtain ⟨h1, -, -, -, -, h6, -, -, -, -, -, -, -, -⟩ :=
    settings_invariant defaultSettings 0
  obtain ⟨-, -, -, -, -, -, -, -, -, -, -, -, h13, -⟩ :=
    settings_invariant fretZeroSettings 0
  exact ⟨h1 (by decide), h6 (by decide), h13 (by decide) (by decide)⟩
